import Mathlib

/-!
Verification development for the circle-drawing benchmark
(`main.py`: `OverlapTask`, `SVGEvaluator`).

The Python code is shallowly embedded: Python floats are modelled as exact
rationals, Python sets as `Finset`, the XML tree produced by
`xml.etree.ElementTree.fromstring` as an explicit inductive tree (a parse
failure, i.e. `ET.ParseError`, is modelled as the `none` outcome), and the
regular-expression search of `_extract_svg` as an executable leftmost,
lazy-quantifier matcher over character lists.
-/

namespace CircleBench

/-- A detected circle, one entry of `SVGEvaluator.circles`
(`{'color': fill, 'cx': cx, 'cy': cy, 'r': r}` in `_parse_svg`).
The Python floats are modelled as exact rationals. -/
structure Circle where
  color : String
  cx : ℚ
  cy : ℚ
  r : ℚ
deriving DecidableEq

/-- Python `tuple(sorted([a, b]))` on two strings: the pair ordered by the
lexicographic order on strings. -/
def sortPair (a b : String) : String × String :=
  if a ≤ b then (a, b) else (b, a)

/-- Python `s.lower()`, modelled as character-wise lowercasing (which
agrees with Python on ASCII colour names). -/
def strToLower (s : String) : String := ⟨s.data.map Char.toLower⟩

/-- The canonicalisation applied to a required pair in `check_overlaps`
line 112: `tuple(sorted((p[0].lower(), p[1].lower())))`. -/
def canonPair (p : String × String) : String × String :=
  sortPair (strToLower p.1) (strToLower p.2)

/-- Python `itertools.combinations(l, 2)`: all pairs of positions `i < j`,
in lexicographic order of positions. -/
def pairsOf : List α → List (α × α)
  | [] => []
  | x :: xs => (xs.map fun y => (x, y)) ++ pairsOf xs

/-- Squared distance between the centres of two circles,
`(c1['cx'] - c2['cx'])**2 + (c1['cy'] - c2['cy'])**2` in `check_overlaps`. -/
def distSq (c1 c2 : Circle) : ℚ :=
  (c1.cx - c2.cx) ^ 2 + (c1.cy - c2.cy) ^ 2

/-- The overlap test of `check_overlaps` line 99:
`math.sqrt(distSq) < c1['r'] + c2['r']`, expressed exactly over the
rationals.  Over the reals, `Real.sqrt d < s` holds iff `0 < s` and
`d < s ^ 2`; this equivalence is `overlapsB_iff_real` below. -/
def overlapsB (c1 c2 : Circle) : Bool :=
  decide (0 < c1.r + c2.r) && decide (distSq c1 c2 < (c1.r + c2.r) ^ 2)

/-- The real-number reading of the source overlap test:
the Euclidean distance between the centres is strictly smaller
than the sum of the radii. -/
def RealOverlap (c1 c2 : Circle) : Prop :=
  Real.sqrt ((distSq c1 c2 : ℚ) : ℝ) < ((c1.r + c2.r : ℚ) : ℝ)

/-- The `detected_overlaps` set built by the pair loop of `check_overlaps`
lines 94-102: for every combination of two circles that passes the overlap
test, the colour pair sorted by name is added to a set. -/
def detectedOverlaps (circles : List Circle) : Finset (String × String) :=
  (((pairsOf circles).filter fun p => overlapsB p.1 p.2).map
      fun p => sortPair p.1.color p.2.color).toFinset

/-- The result record returned by `check_overlaps` on the non-error path
(lines 125-134).  The Python `details` lists are built from sets whose
iteration order is unspecified, so they are modelled as the sets. -/
structure EvalRecord where
  metric_circle_count : String
  metric_correct_overlaps_found : String
  metric_incorrect_overlaps_made : ℕ
  found_pairs : Finset (String × String)
  missed_pairs : Finset (String × String)
  hallucinated_pairs : Finset (String × String)
deriving DecidableEq

/-- Result of `check_overlaps`: either the error dictionary
`{"error": "Invalid SVG XML"}` or the metric record. -/
inductive EvalResult where
  | error (msg : String)
  | ok (record : EvalRecord)
deriving DecidableEq

/-- The state of an `SVGEvaluator` after construction: the parsed circle
list and the parse-failure flag. -/
structure SVGState where
  circles : List Circle
  parse_error : Bool

/-- `SVGEvaluator.check_overlaps` (lines 83-134).  The unused local
`req_colors_lower` of line 91 (computed and never read) is omitted. -/
def check_overlaps (st : SVGState) (required_overlaps : Finset (String × String))
    (all_required_colors : List String) : EvalResult :=
  if st.parse_error then .error "Invalid SVG XML" else
  let detected := detectedOverlaps st.circles
  let req_overlaps_lower := required_overlaps.image canonPair
  let true_positives := detected ∩ req_overlaps_lower
  let false_positives := detected \ req_overlaps_lower
  let false_negatives := req_overlaps_lower \ detected
  .ok {
    metric_circle_count :=
      toString st.circles.length ++ "/" ++ toString all_required_colors.length
    metric_correct_overlaps_found :=
      toString true_positives.card ++ "/" ++ toString req_overlaps_lower.card
    metric_incorrect_overlaps_made := false_positives.card
    found_pairs := detected
    missed_pairs := false_negatives
    hallucinated_pairs := false_positives }

/-- An XML element as produced by `xml.etree.ElementTree.fromstring`:
a tag, an attribute dictionary and a list of child elements. -/
structure XMLElem where
  tag : String
  attrib : List (String × String)
  children : List XMLElem

theorem sizeOf_children_lt (e : XMLElem) : sizeOf e.children < sizeOf e := by
  cases e with
  | mk t a c => simp only [XMLElem.mk.sizeOf_spec]; omega

mutual
/-- Proper descendants of a single element, in document (pre-)order. -/
def elemDesc : XMLElem → List XMLElem
  | ⟨_, _, children⟩ => descList children
/-- All elements of `l` together with every element strictly below them,
in document (pre-)order.  `descList root.children` is exactly what
`root.findall(".//circle")` walks over before the tag filter: every
proper descendant of `root`, the root itself excluded. -/
def descList : List XMLElem → List XMLElem
  | [] => []
  | c :: cs => (c :: elemDesc c) ++ descList cs
end

theorem elemDesc_eq (e : XMLElem) : elemDesc e = descList e.children := by
  cases e
  rfl

/-- The elements visited by `root.findall(".//...")`: every element on any
level beneath `root` (the root element itself is not included). -/
def descendants (e : XMLElem) : List XMLElem := descList e.children

/-- Python `attrs.get(name)` on the attribute dictionary: the value of the
first binding of `name`, if any. -/
def getAttr (attrs : List (String × String)) (name : String) : Option String :=
  (attrs.find? fun p => p.1 == name).map Prod.snd

/-- Numeric value of a digit list, most significant first. -/
def digitsToNat (ds : List Char) : ℕ := ds.foldl (fun a c => 10 * a + (c.toNat - 48)) 0

/-- Nonempty all-digit suffix for an exponent, else `none`. -/
def readExpDigits (cs : List Char) : Option ℕ :=
  if cs ≠ [] ∧ cs.all Char.isDigit then some (digitsToNat cs) else none

/-- Optionally signed exponent digits. -/
def expSigned : List Char → Option ℤ
  | '+' :: ds => (readExpDigits ds).map Int.ofNat
  | '-' :: ds => (readExpDigits ds).map fun n => -(n : ℤ)
  | ds => (readExpDigits ds).map Int.ofNat

/-- The exponent suffix of a float literal: empty, or `e`/`E` followed by an
optionally signed digit string. -/
def expPart : List Char → Option ℤ
  | [] => some 0
  | 'e' :: rest => expSigned rest
  | 'E' :: rest => expSigned rest
  | _ => none

/-- Exact rational value of a decimal literal with integer-and-fraction
digit value `m`, `fracLen` fraction digits and decimal exponent `e`:
the value `m * 10 ^ (e - fracLen)`, assembled with `mkRat` so that it
evaluates by kernel reduction. -/
def pyVal (m : ℕ) (fracLen : ℕ) (e : ℤ) : ℚ :=
  match e - (fracLen : ℤ) with
  | .ofNat k => mkRat ((m : ℤ) * 10 ^ k) 1
  | .negSucc k => mkRat (m : ℤ) (10 ^ (k + 1))

/-- Parses a float literal after the optional sign: digits with an optional
decimal point and an optional exponent. -/
def pyFloatCore (cs : List Char) : Option ℚ :=
  let ip := cs.takeWhile Char.isDigit
  let rest := cs.dropWhile Char.isDigit
  match rest with
  | '.' :: rest2 =>
    let fp := rest2.takeWhile Char.isDigit
    let rest3 := rest2.dropWhile Char.isDigit
    if ip.isEmpty && fp.isEmpty then none
    else (expPart rest3).map fun e => pyVal (digitsToNat (ip ++ fp)) fp.length e
  | _ =>
    if ip.isEmpty then none
    else (expPart rest).map fun e => pyVal (digitsToNat ip) 0 e

/-- Leading and trailing whitespace removed. -/
def stripWs (cs : List Char) : List Char :=
  ((cs.dropWhile Char.isWhitespace).reverse.dropWhile Char.isWhitespace).reverse

/-- Python built-in `float(s)` on a string, modelled for finite decimal
literals over exact rationals: surrounding whitespace is stripped, an
optional sign is followed by a decimal literal with optional fraction and
exponent; everything else fails (`ValueError` is modelled as `none`).
IEEE specials such as `inf`/`nan` and digit-group underscores are outside
this model; no claim depends on them. -/
def pyFloat (s : String) : Option ℚ :=
  match stripWs s.data with
  | '+' :: rest => pyFloatCore rest
  | '-' :: rest => (pyFloatCore rest).map Neg.neg
  | cs => pyFloatCore cs

/-- `float(child.attrib.get(name, 0))` of `_parse_svg` lines 73-75: an
absent attribute defaults to the number `0`, a present one goes through
float conversion. -/
def floatAttr (attrs : List (String × String)) (name : String) : Option ℚ :=
  match getAttr attrs name with
  | none => some 0
  | some s => pyFloat s

/-- The body of the per-element `try` block of `_parse_svg` lines 72-79:
reads `cx`, `cy`, `r` (default `0`) and `fill` (default `black`, lowercased);
a `ValueError` in any of the three float conversions skips the element. -/
def parseCircle (e : XMLElem) : Option Circle :=
  match floatAttr e.attrib "cx", floatAttr e.attrib "cy", floatAttr e.attrib "r" with
  | some cx, some cy, some r =>
      some { color := strToLower ((getAttr e.attrib "fill").getD "black")
             cx := cx, cy := cy, r := r }
  | _, _, _ => none

/-- `SVGEvaluator._parse_svg` (lines 64-81) over the outcome of
`ET.fromstring` on the cleaned text: `none` models an `ET.ParseError`
(the failure flag is set and no circles are produced); on a parsed root,
every element named `circle` anywhere beneath the root is read, elements
whose float conversion fails are skipped. -/
def parseSVG (outcome : Option XMLElem) : SVGState :=
  match outcome with
  | none => { circles := [], parse_error := true }
  | some root =>
      { circles :=
          ((descendants root).filter fun e => e.tag == "circle").filterMap parseCircle
        parse_error := false }

/-- Case-insensitive character comparison (ASCII case folding), modelling
`re.IGNORECASE` on the pattern letters. -/
def ciEq (a b : Char) : Bool := a.toLower == b.toLower

/-- Does `pat` case-insensitively begin the list `s`. -/
def ciStarts : List Char → List Char → Bool
  | [], _ => true
  | _ :: _, [] => false
  | p :: ps, c :: cs => ciEq p c && ciStarts ps cs

/-- Case-insensitive equality of whole character lists. -/
def ciListEq : List Char → List Char → Bool
  | [], [] => true
  | p :: ps, c :: cs => ciEq p c && ciListEq ps cs
  | _, _ => false

/-- Does the list begin with the character `>`. -/
def startsGt : List Char → Bool
  | [] => false
  | c :: _ => c == '>'

/-- Position of the first suffix of the list satisfying `p`, if any. -/
def findPos (p : List Char → Bool) : List Char → Option ℕ
  | [] => if p [] then some 0 else none
  | c :: t => if p (c :: t) then some 0 else (findPos p t).map (· + 1)

/-- The literal characters of the opening part `<svg` of the pattern. -/
def openTagChars : List Char := ['<', 's', 'v', 'g']

/-- The literal characters of the closing part `</svg>` of the pattern. -/
def closeTagChars : List Char := ['<', '/', 's', 'v', 'g', '>']

/-- `re.search(r'<svg.*?>.*?</svg>', text, re.DOTALL | re.IGNORECASE)` of
`_extract_svg` (lines 57-62), as Python resolves it: the match starts at
the first position carrying a case-insensitive `<svg` that can be
completed, the lazy `.*?>` stops at the first later `>`, and the lazy
`.*?</svg>` stops at the first later case-insensitive `</svg>`.  Without a
match the input is returned unchanged. -/
def extractList (t : List Char) : List Char :=
  match findPos (ciStarts openTagChars) t with
  | none => t
  | some i =>
    match findPos startsGt (t.drop (i + 4)) with
    | none => t
    | some k =>
      match findPos (ciStarts closeTagChars) (t.drop (i + 4 + k + 1)) with
      | none => t
      | some l => (t.drop i).take (k + l + 11)

/-- `SVGEvaluator._extract_svg` on a string. -/
def extract_svg (s : String) : String := ⟨extractList s.data⟩

/-- A full match of the pattern `<svg.*?>.*?</svg>` under `DOTALL` and
`IGNORECASE`: a case-insensitive `<svg`, then anything, a `>`, anything
again, and a case-insensitive `</svg>`. -/
def IsSvgMatch (s : List Char) : Prop :=
  ∃ o a b c, s = o ++ (a ++ ('>' :: (b ++ c))) ∧
    ciListEq openTagChars o = true ∧ ciListEq closeTagChars c = true

/-- The fixed colour palette of `OverlapTask.__init__` (line 20). -/
def taskColors : List String := ["Red", "Blue", "Green", "Yellow", "Purple", "Orange"]

/-- The state of a constructed `OverlapTask`: the assigned colours and the
canonicalised required-overlap set. -/
structure TaskState where
  circles : List String
  overlaps_needed : Finset (String × String)

/-- `OverlapTask.__init__` (lines 19-25): raises `ValueError` when more
circles are requested than the palette holds, otherwise assigns the first
`num_circles` palette colours and stores the required pairs each sorted,
as a set. -/
def OverlapTask.init (num_circles : ℕ) (overlaps_needed : List (String × String)) :
    Except String TaskState :=
  if taskColors.length < num_circles then
    .error "Too many circles for defined colors."
  else
    .ok { circles := taskColors.take num_circles
          overlaps_needed := (overlaps_needed.map fun p => sortPair p.1 p.2).toFinset }

/-- Python `', '.join(l)`. -/
def joinComma : List String → String
  | [] => ""
  | [s] => s
  | s :: rest => s ++ ", " ++ joinComma rest

/-- The fixed leading part of the prompt of `get_prompt` (lines 28-33). -/
def promptHeader (circles : List String) : String :=
  "Create a valid SVG code block containing exactly " ++ toString circles.length ++
  " circles. The circles must be filled with these colors: " ++ joinComma circles ++
  ". \nUse standard <circle cx=\x27...\x27 cy=\x27...\x27 r=\x27...\x27 fill=\x27...\x27 /> tags.\n\nCRITICAL GEOMETRY REQUIREMENTS:\n"

/-- One required-overlap line of `get_prompt` (line 40). -/
def overlapLine (p : String × String) : String :=
  "- The " ++ p.1 ++ " circle MUST overlap with the " ++ p.2 ++ " circle.\n"

/-- The line emitted when no overlaps are required (line 37). -/
def noOverlapLine : String := "- No circles should overlap.\n"

/-- The fixed closing part of the prompt (lines 42-43). -/
def promptTail : String :=
  "- Any pair of circles not listed above must NOT overlap.\nReturn only the SVG code."

/-- `OverlapTask.get_prompt` (lines 27-44).  Python iterates the
`overlaps_needed` set in an unspecified order; the enumeration used is
taken as the parameter `overlapsList`. -/
def get_prompt (circles : List String) (overlapsList : List (String × String)) : String :=
  (if overlapsList.isEmpty then promptHeader circles ++ noOverlapLine
   else overlapsList.foldl (fun acc p => acc ++ overlapLine p) (promptHeader circles)) ++
  promptTail

/-! Geometry lemmas -/

theorem overlapsB_iff_real (c1 c2 : Circle) : overlapsB c1 c2 = true ↔ RealOverlap c1 c2 := by
  simp only [overlapsB, Bool.and_eq_true, decide_eq_true_eq, RealOverlap]
  constructor
  · rintro ⟨hs, hd⟩
    have hs' : (0 : ℝ) < ((c1.r + c2.r : ℚ) : ℝ) := by exact_mod_cast hs
    rw [Real.sqrt_lt' hs']
    exact_mod_cast hd
  · intro h
    have hs' : (0 : ℝ) < ((c1.r + c2.r : ℚ) : ℝ) :=
      lt_of_le_of_lt (Real.sqrt_nonneg _) h
    refine ⟨by exact_mod_cast hs', ?_⟩
    have := (Real.sqrt_lt' hs').mp h
    exact_mod_cast this

/-- Index pairs `(i, j)` with `i < j < n`, in the order in which
`itertools.combinations` visits positions. -/
def pairsIdx : ℕ → List (ℕ × ℕ)
  | 0 => []
  | n + 1 =>
    ((List.range n).map fun j => (0, j + 1)) ++ (pairsIdx n).map fun p => (p.1 + 1, p.2 + 1)

theorem mem_pairsIdx : ∀ n i j, ((i, j) ∈ pairsIdx n) ↔ i < j ∧ j < n := by
  intro n
  induction n with
  | zero => intro i j; simp [pairsIdx]
  | succ n ih =>
    intro i j
    simp only [pairsIdx, List.mem_append, List.mem_map, List.mem_range, Prod.mk.injEq]
    constructor
    · rintro (⟨a, ha, hi, hj⟩ | ⟨⟨a, b⟩, hab, hi, hj⟩)
      · omega
      · have := (ih a b).mp hab
        omega
    · rintro ⟨hij, hjn⟩
      match i, j with
      | 0, j + 1 => exact Or.inl ⟨j, by omega, rfl, rfl⟩
      | i + 1, j + 1 => exact Or.inr ⟨(i, j), (ih i j).mpr (by omega), rfl, rfl⟩

theorem pairsIdx_nodup : ∀ n, (pairsIdx n).Nodup := by
  intro n
  induction n with
  | zero => simp [pairsIdx]
  | succ n ih =>
    rw [pairsIdx]
    refine List.Nodup.append ?_ ?_ ?_
    · exact (List.nodup_range n).map fun a b h => by simpa using h
    · exact ih.map fun a b h => by
        cases a; cases b
        simpa [Prod.ext_iff] using h
    · intro x hx hy
      obtain ⟨a, _, rfl⟩ := List.mem_map.mp hx
      obtain ⟨b, _, hb⟩ := List.mem_map.mp hy
      cases hb

theorem range_map_getD (l : List α) (d : α) :
    (List.range l.length).map (fun j => l.getD j d) = l := by
  induction l with
  | nil => simp
  | cons x xs ih =>
    rw [List.length_cons, List.range_succ_eq_map, List.map_cons, List.map_map]
    simp only [List.getD_cons_zero]
    congr 1

theorem pairsOf_eq_idx (l : List α) (d : α) :
    pairsOf l = (pairsIdx l.length).map fun p => (l.getD p.1 d, l.getD p.2 d) := by
  induction l with
  | nil => rfl
  | cons x xs ih =>
    rw [pairsOf, List.length_cons, pairsIdx, List.map_append, List.map_map, List.map_map]
    rw [ih]
    congr 1
    conv_lhs => rw [← range_map_getD xs d]
    rw [List.map_map]
    simp [Function.comp]

theorem mem_detectedOverlaps (circles : List Circle) (q : String × String) :
    q ∈ detectedOverlaps circles ↔
      ∃ p ∈ pairsOf circles, overlapsB p.1 p.2 = true ∧ sortPair p.1.color p.2.color = q := by
  unfold detectedOverlaps
  rw [List.mem_toFinset, List.mem_map]
  constructor
  · rintro ⟨p, hp, rfl⟩
    rw [List.mem_filter] at hp
    exact ⟨p, hp.1, hp.2, rfl⟩
  · rintro ⟨p, hp, ho, rfl⟩
    exact ⟨p, List.mem_filter.mpr ⟨hp, ho⟩, rfl⟩

/-- Default circle used only to state positional indexing. -/
def dfltCircle : Circle := ⟨"", 0, 0, 0⟩

/-- C1: the scorer enumerates each unordered pair of distinct circles
exactly once (`pairsIdx` lists every index pair `i < j` once, without
duplicates, and the combination loop walks exactly those pairs); a pair is
classified as overlapping iff the Euclidean distance of the centres is
strictly below the sum of the radii; externally tangent circles (distance
equal to the radius sum) are never classified as overlapping; the
detected-overlap collection is a set, so a colour pair produced by several
circle pairs appears once. -/
theorem claim_C1 (circles : List Circle) :
    (∀ i j : ℕ, ((i, j) ∈ pairsIdx circles.length) ↔ i < j ∧ j < circles.length)
    ∧ (pairsIdx circles.length).Nodup
    ∧ pairsOf circles =
        (pairsIdx circles.length).map
          (fun p => (circles.getD p.1 dfltCircle, circles.getD p.2 dfltCircle))
    ∧ (∀ q, q ∈ detectedOverlaps circles ↔
        ∃ i j, i < j ∧ j < circles.length ∧
          RealOverlap (circles.getD i dfltCircle) (circles.getD j dfltCircle) ∧
          sortPair (circles.getD i dfltCircle).color (circles.getD j dfltCircle).color = q)
    ∧ (∀ c1 c2 : Circle,
        Real.sqrt ((distSq c1 c2 : ℚ) : ℝ) = ((c1.r + c2.r : ℚ) : ℝ) →
          overlapsB c1 c2 = false) := by
  refine ⟨fun i j => mem_pairsIdx _ i j, pairsIdx_nodup _, pairsOf_eq_idx _ _, ?_, ?_⟩
  · intro q
    rw [mem_detectedOverlaps]
    constructor
    · rintro ⟨p, hp, ho, hq⟩
      rw [pairsOf_eq_idx circles dfltCircle, List.mem_map] at hp
      obtain ⟨⟨i, j⟩, hij, rfl⟩ := hp
      rw [mem_pairsIdx] at hij
      exact ⟨i, j, hij.1, hij.2, (overlapsB_iff_real _ _).mp ho, hq⟩
    · rintro ⟨i, j, hij, hjn, ho, hq⟩
      refine ⟨(circles.getD i dfltCircle, circles.getD j dfltCircle), ?_,
        (overlapsB_iff_real _ _).mpr ho, hq⟩
      rw [pairsOf_eq_idx circles dfltCircle, List.mem_map]
      exact ⟨(i, j), (mem_pairsIdx _ i j).mpr ⟨hij, hjn⟩, rfl⟩
  · intro c1 c2 h
    by_contra hb
    rw [Bool.not_eq_false] at hb
    have hro := (overlapsB_iff_real c1 c2).mp hb
    rw [RealOverlap, h] at hro
    exact lt_irrefl _ hro

/-- Witness for C1: two externally tangent circles (distance 5, radii 1
and 4) are not classified as overlapping. -/
theorem claim_C1_witness :
    overlapsB ⟨"red", 0, 0, 1⟩ ⟨"blue", 3, 4, 4⟩ = false := by
  have h := (claim_C1 []).2.2.2.2 ⟨"red", 0, 0, 1⟩ ⟨"blue", 3, 4, 4⟩
  apply h
  have hd : ((distSq ⟨"red", 0, 0, 1⟩ ⟨"blue", 3, 4, 4⟩ : ℚ) : ℝ) = 25 := by
    norm_num [distSq]
  have hs : (((Circle.mk "red" 0 0 1).r + (Circle.mk "blue" 3 4 4).r : ℚ) : ℝ) = 5 := by
    norm_num
  rw [hd, hs, show (25 : ℝ) = 5 ^ 2 by norm_num]
  exact Real.sqrt_sq (by norm_num)

/-- C2: on the non-error path the result record is exactly the claimed set
computations: true positives are the intersection of the detected set with
the lowercased re-sorted required set, hallucinated pairs the difference
detected minus required with their count as the incorrect-overlap metric,
missed pairs the difference required minus detected, the circle-count
metric the string parsed-count slash expected-count, and the
correct-overlap metric the string true-positive-count slash
canonical-required-count. -/
theorem claim_C2 (circles : List Circle) (req : Finset (String × String))
    (colors : List String) :
    check_overlaps ⟨circles, false⟩ req colors = .ok {
      metric_circle_count := toString circles.length ++ "/" ++ toString colors.length
      metric_correct_overlaps_found :=
        toString (detectedOverlaps circles ∩ req.image canonPair).card ++ "/" ++
          toString (req.image canonPair).card
      metric_incorrect_overlaps_made := (detectedOverlaps circles \ req.image canonPair).card
      found_pairs := detectedOverlaps circles
      missed_pairs := req.image canonPair \ detectedOverlaps circles
      hallucinated_pairs := detectedOverlaps circles \ req.image canonPair }
    ∧ ∀ q, (q ∈ req.image canonPair) ↔ ∃ p ∈ req, canonPair p = q := by
  refine ⟨rfl, ?_⟩
  intro q
  simp [Finset.mem_image]

/-- Witness for C2 at a concrete input. -/
theorem claim_C2_witness :
    check_overlaps ⟨[], false⟩ (∅ : Finset (String × String)) [] = .ok {
      metric_circle_count := "0/0"
      metric_correct_overlaps_found := "0/0"
      metric_incorrect_overlaps_made := 0
      found_pairs := ∅
      missed_pairs := ∅
      hallucinated_pairs := ∅ } := by
  have h := (claim_C2 [] (∅ : Finset (String × String)) []).1
  rw [h]
  rfl

/-- C3: a parse failure (the `none` outcome of `ET.fromstring`, i.e. text
that is not well-formed markup) sets the failure flag with an empty circle
list, and the scorer on a failed state returns exactly the error object
with message Invalid SVG XML, carrying no metrics. -/
theorem claim_C3 (cs : List Circle) (req : Finset (String × String)) (colors : List String) :
    parseSVG none = { circles := [], parse_error := true }
    ∧ check_overlaps { circles := cs, parse_error := true } req colors =
        .error "Invalid SVG XML" :=
  ⟨rfl, rfl⟩

/-- C4: a circle element whose `cx`, `cy` or `r` value fails numeric
conversion contributes nothing (the element is skipped), every other
circle element of the document is still parsed (the circle list is the
element-wise `filterMap` over all circle elements, so a failure is local
to its element); absent `cx`, `cy`, `r` default to `0` and an absent
`fill` defaults to `black`, none of them causing a skip. -/
theorem parseCircle_some (e : XMLElem) (x y rad : ℚ)
    (hcx : floatAttr e.attrib "cx" = some x) (hcy : floatAttr e.attrib "cy" = some y)
    (hr : floatAttr e.attrib "r" = some rad) :
    parseCircle e = some ⟨strToLower ((getAttr e.attrib "fill").getD "black"), x, y, rad⟩ := by
  simp [parseCircle, hcx, hcy, hr]

theorem parseCircle_color (e : XMLElem) (c : Circle) (h : parseCircle e = some c) :
    c.color = strToLower ((getAttr e.attrib "fill").getD "black") := by
  cases hcx : floatAttr e.attrib "cx" with
  | none => simp [parseCircle, hcx] at h
  | some x =>
    cases hcy : floatAttr e.attrib "cy" with
    | none => simp [parseCircle, hcx, hcy] at h
    | some y =>
      cases hr : floatAttr e.attrib "r" with
      | none => simp [parseCircle, hcx, hcy, hr] at h
      | some rad =>
        rw [parseCircle_some e x y rad hcx hcy hr] at h
        injection h with h
        rw [← h]

theorem claim_C4 (root : XMLElem) :
    (parseSVG (some root)).circles =
      ((descendants root).filter fun e => e.tag == "circle").filterMap parseCircle
    ∧ (∀ e : XMLElem,
        floatAttr e.attrib "cx" = none ∨ floatAttr e.attrib "cy" = none ∨
          floatAttr e.attrib "r" = none → parseCircle e = none)
    ∧ (∀ (e : XMLElem) (x y rad : ℚ),
        floatAttr e.attrib "cx" = some x → floatAttr e.attrib "cy" = some y →
        floatAttr e.attrib "r" = some rad →
          parseCircle e =
            some ⟨strToLower ((getAttr e.attrib "fill").getD "black"), x, y, rad⟩)
    ∧ (∀ (attrs : List (String × String)) (name : String),
        getAttr attrs name = none → floatAttr attrs name = some 0)
    ∧ (∀ (e : XMLElem) (x y rad : ℚ), getAttr e.attrib "fill" = none →
        floatAttr e.attrib "cx" = some x → floatAttr e.attrib "cy" = some y →
        floatAttr e.attrib "r" = some rad →
          parseCircle e = some ⟨"black", x, y, rad⟩) := by
  refine ⟨rfl, ?_, ?_, ?_, ?_⟩
  · intro e h
    rcases h with h | h | h <;> simp [parseCircle, h]
  · intro e x y rad hcx hcy hr
    exact parseCircle_some e x y rad hcx hcy hr
  · intro attrs name h
    simp [floatAttr, h]
  · intro e x y rad hfill hcx hcy hr
    rw [parseCircle_some e x y rad hcx hcy hr, hfill]
    rfl

/-- XML element with a non-numeric `cx`, used as a witness input. -/
def badCircleElem : XMLElem :=
  ⟨"circle", [("cx", "abc"), ("cy", "0"), ("r", "5"), ("fill", "Red")], []⟩

/-- Well-formed circle element, used as a witness input. -/
def goodCircleElem : XMLElem :=
  ⟨"circle", [("cx", "1"), ("cy", "2"), ("r", "3"), ("fill", "Blue")], []⟩

/-- Document holding one malformed and one well-formed circle. -/
def demoRoot : XMLElem := ⟨"svg", [], [badCircleElem, goodCircleElem]⟩

/-- Witness for C4: in a document with a malformed and a well-formed
circle, the malformed one is skipped and the well-formed one is parsed. -/
theorem claim_C4_witness :
    parseCircle badCircleElem = none
    ∧ parseCircle goodCircleElem = some ⟨"blue", 1, 2, 3⟩
    ∧ (parseSVG (some demoRoot)).circles = [⟨"blue", 1, 2, 3⟩] := by
  refine ⟨?_, ?_, ?_⟩
  · exact (claim_C4 demoRoot).2.1 badCircleElem (Or.inl (by decide))
  · have h := (claim_C4 demoRoot).2.2.1 goodCircleElem 1 2 3 (by decide) (by decide) (by decide)
    rw [h]
    decide
  · decide

/-- C5: construction fails with the configuration error exactly when the
requested count exceeds the six-entry palette, and otherwise assigns the
first `n` palette colours in palette order, `n` of them. -/
theorem claim_C5 (n : ℕ) (ov : List (String × String)) :
    taskColors.length = 6
    ∧ (6 < n → OverlapTask.init n ov = .error "Too many circles for defined colors.")
    ∧ (n ≤ 6 →
        OverlapTask.init n ov =
          .ok { circles := taskColors.take n
                overlaps_needed := (ov.map fun p => sortPair p.1 p.2).toFinset }
        ∧ (taskColors.take n).length = n) := by
  refine ⟨rfl, ?_, ?_⟩
  · intro h
    unfold OverlapTask.init
    rw [if_pos]
    exact h
  · intro h
    refine ⟨?_, ?_⟩
    · unfold OverlapTask.init
      rw [if_neg]
      simp only [taskColors, List.length_cons, List.length_nil]
      omega
    · rw [List.length_take]
      simp only [taskColors, List.length_cons, List.length_nil]
      omega

/-- Witness for C5: seven circles fail, two circles succeed with the first
two palette colours. -/
theorem claim_C5_witness :
    OverlapTask.init 7 [] = .error "Too many circles for defined colors."
    ∧ OverlapTask.init 2 [] =
        .ok { circles := ["Red", "Blue"], overlaps_needed := ∅ } := by
  constructor
  · exact (claim_C5 7 []).2.1 (by omega)
  · have h := ((claim_C5 2 []).2.2 (by omega)).1
    rw [h]
    rfl

theorem sortPair_comm (a b : String) : sortPair a b = sortPair b a := by
  unfold sortPair
  by_cases hab : a ≤ b <;> by_cases hba : b ≤ a
  · rw [if_pos hab, if_pos hba, le_antisymm hab hba]
  · rw [if_pos hab, if_neg hba]
  · rw [if_neg hab, if_pos hba]
  · rcases le_total a b with h | h
    · exact absurd h hab
    · exact absurd h hba

/-- C6: required pairs are treated symmetrically and case-insensitively
(the scorer canonicalisation is invariant under swapping the pair and
under letter case of either name, and the scorer output depends on the
required set only through that canonicalisation); on the detected side the
overlap predicate and the sorted recording are symmetric in the two
circles, and every recorded colour is a lowercased fill value. -/
theorem claim_C6 :
    (∀ a b : String, canonPair (a, b) = canonPair (b, a))
    ∧ (∀ a b a2 b2 : String, strToLower a = strToLower a2 → strToLower b = strToLower b2 →
        canonPair (a, b) = canonPair (a2, b2))
    ∧ (∀ req req2 : Finset (String × String), req.image canonPair = req2.image canonPair →
        ∀ st colors, check_overlaps st req colors = check_overlaps st req2 colors)
    ∧ (∀ c1 c2 : Circle, overlapsB c1 c2 = overlapsB c2 c1)
    ∧ (∀ a b : String, sortPair a b = sortPair b a)
    ∧ (∀ (e : XMLElem) (c : Circle), parseCircle e = some c →
        ∃ f : String, c.color = strToLower f) := by
  refine ⟨?_, ?_, ?_, ?_, sortPair_comm, ?_⟩
  · intro a b
    exact sortPair_comm _ _
  · intro a b a2 b2 h1 h2
    simp only [canonPair]
    rw [h1, h2]
  · intro req req2 himg st colors
    unfold check_overlaps
    rw [himg]
  · intro c1 c2
    have h1 : distSq c1 c2 = distSq c2 c1 := by unfold distSq; ring
    have h2 : c1.r + c2.r = c2.r + c1.r := add_comm _ _
    rw [overlapsB, overlapsB, h1, h2]
  · intro e c h
    exact ⟨_, parseCircle_color e c h⟩

/-- Witness for C6: the same required pair in swapped order and different
letter case canonicalises identically. -/
theorem claim_C6_witness :
    canonPair ("Red", "Blue") = canonPair ("blue", "RED") := by
  have h := claim_C6
  calc canonPair ("Red", "Blue") = canonPair ("RED", "blue") :=
        h.2.1 "Red" "Blue" "RED" "blue" (by decide) (by decide)
    _ = canonPair ("blue", "RED") := h.1 "RED" "blue"

/-- C10: in every non-error result the pair collections are consistent:
hallucinated and missed pairs are disjoint, each canonical required pair
is in exactly one of found or missed, each found pair outside the required
set is hallucinated, the correct-overlap ratio has numerator at most
denominator, and the incorrect-overlap metric counts the hallucinated
pairs. -/
theorem claim_C10 (circles : List Circle) (req : Finset (String × String))
    (colors : List String) (r : EvalRecord)
    (h : check_overlaps ⟨circles, false⟩ req colors = .ok r) :
    r.hallucinated_pairs ∩ r.missed_pairs = ∅
    ∧ (∀ p ∈ req.image canonPair, (p ∈ r.found_pairs ↔ p ∉ r.missed_pairs))
    ∧ (∀ p ∈ req.image canonPair, p ∈ r.found_pairs ∨ p ∈ r.missed_pairs)
    ∧ (∀ p ∈ r.found_pairs, p ∉ req.image canonPair → p ∈ r.hallucinated_pairs)
    ∧ (∃ a b : ℕ, r.metric_correct_overlaps_found = toString a ++ "/" ++ toString b ∧ a ≤ b)
    ∧ r.metric_incorrect_overlaps_made = r.hallucinated_pairs.card := by
  have h' : EvalResult.ok {
      metric_circle_count := toString circles.length ++ "/" ++ toString colors.length
      metric_correct_overlaps_found :=
        toString (detectedOverlaps circles ∩ req.image canonPair).card ++ "/" ++
          toString (req.image canonPair).card
      metric_incorrect_overlaps_made := (detectedOverlaps circles \ req.image canonPair).card
      found_pairs := detectedOverlaps circles
      missed_pairs := req.image canonPair \ detectedOverlaps circles
      hallucinated_pairs := detectedOverlaps circles \ req.image canonPair } =
      EvalResult.ok r := h
  injection h' with h'
  subst h'
  refine ⟨?_, ?_, ?_, ?_, ?_, rfl⟩
  · ext p
    simp only [Finset.mem_inter, Finset.mem_sdiff, Finset.not_mem_empty, iff_false]
    tauto
  · intro p hp
    simp only [Finset.mem_sdiff]
    tauto
  · intro p hp
    by_cases hd : p ∈ detectedOverlaps circles
    · exact Or.inl hd
    · exact Or.inr (Finset.mem_sdiff.mpr ⟨hp, hd⟩)
  · intro p hp hnot
    exact Finset.mem_sdiff.mpr ⟨hp, hnot⟩
  · exact ⟨(detectedOverlaps circles ∩ req.image canonPair).card, (req.image canonPair).card,
      rfl, Finset.card_le_card Finset.inter_subset_right⟩

/-- The record produced on the empty evaluation, used as a witness. -/
def emptyRecord : EvalRecord :=
  { metric_circle_count := "0/0"
    metric_correct_overlaps_found := "0/0"
    metric_incorrect_overlaps_made := 0
    found_pairs := ∅
    missed_pairs := ∅
    hallucinated_pairs := ∅ }

/-- Witness for C10 at the empty evaluation. -/
theorem claim_C10_witness :
    emptyRecord.hallucinated_pairs ∩ emptyRecord.missed_pairs = ∅
    ∧ emptyRecord.metric_incorrect_overlaps_made = emptyRecord.hallucinated_pairs.card := by
  have h := claim_C10 [] ∅ [] emptyRecord (by rfl)
  exact ⟨h.1, h.2.2.2.2.2⟩

/-- Proper-descendant relation on XML elements: `Desc e x` holds when `x`
is reachable from `e` by one or more child steps. -/
inductive Desc : XMLElem → XMLElem → Prop where
  | here : ∀ {e c : XMLElem}, c ∈ e.children → Desc e c
  | step : ∀ {e c x : XMLElem}, c ∈ e.children → Desc c x → Desc e x

theorem mem_descList_of {l : List XMLElem} {c x : XMLElem}
    (hc : c ∈ l) (hx : x = c ∨ x ∈ elemDesc c) : x ∈ descList l := by
  induction l with
  | nil => cases hc
  | cons d ds ih =>
    rw [descList]
    rcases List.mem_cons.mp hc with rfl | hc2
    · rcases hx with rfl | hx2
      · exact List.mem_append_left _ (List.mem_cons_self _ _)
      · exact List.mem_append_left _ (List.mem_cons_of_mem _ hx2)
    · exact List.mem_append_right _ (ih hc2)

theorem desc_mem_descendants {e x : XMLElem} (h : Desc e x) : x ∈ descendants e := by
  induction h with
  | here hc => exact mem_descList_of hc (Or.inl rfl)
  | step hc _ ih =>
    exact mem_descList_of hc (Or.inr (by rw [elemDesc_eq]; exact ih))

theorem mem_descList_elim :
    ∀ (n : ℕ) (l : List XMLElem), sizeOf l ≤ n → ∀ x, x ∈ descList l →
      ∃ c ∈ l, x = c ∨ Desc c x := by
  intro n
  induction n with
  | zero =>
    intro l hl x hx
    cases l with
    | nil => simp [descList] at hx
    | cons c cs => simp [List.cons.sizeOf_spec] at hl
  | succ n ih =>
    intro l hl x hx
    cases l with
    | nil => simp [descList] at hx
    | cons c cs =>
      have hsz : sizeOf (c :: cs) = 1 + sizeOf c + sizeOf cs := List.cons.sizeOf_spec c cs
      rw [descList] at hx
      rcases List.mem_append.mp hx with h1 | h2
      · rcases List.mem_cons.mp h1 with rfl | h1b
        · exact ⟨x, List.mem_cons_self x cs, Or.inl rfl⟩
        · rw [elemDesc_eq] at h1b
          have hch : sizeOf c.children ≤ n := by
            have := sizeOf_children_lt c
            omega
          obtain ⟨d, hd, hdx⟩ := ih c.children hch x h1b
          refine ⟨c, List.mem_cons_self c cs, Or.inr ?_⟩
          rcases hdx with rfl | hdesc
          · exact Desc.here hd
          · exact Desc.step hd hdesc
      · have hcs : sizeOf cs ≤ n := by omega
        obtain ⟨d, hd, hdx⟩ := ih cs hcs x h2
        exact ⟨d, List.mem_cons_of_mem c hd, hdx⟩

theorem mem_descendants_iff (e x : XMLElem) : x ∈ descendants e ↔ Desc e x := by
  constructor
  · intro h
    obtain ⟨c, hc, hx⟩ := mem_descList_elim (sizeOf e.children) e.children le_rfl x h
    rcases hx with rfl | hd
    · exact Desc.here hc
    · exact Desc.step hc hd
  · exact desc_mem_descendants

theorem desc_sizeOf_lt {e x : XMLElem} (h : Desc e x) : sizeOf x < sizeOf e := by
  induction h with
  | @here e c hc =>
    have h1 := List.sizeOf_lt_of_mem hc
    have h2 := sizeOf_children_lt e
    omega
  | @step e c x hc _ ih =>
    have h1 := List.sizeOf_lt_of_mem hc
    have h2 := sizeOf_children_lt e
    omega

theorem root_not_mem_descendants (e : XMLElem) : e ∉ descendants e := by
  intro h
  have := desc_sizeOf_lt ((mem_descendants_iff e e).mp h)
  omega

/-- Document whose root element is itself a `circle`, used to refute C8. -/
def rootCircleElem : XMLElem :=
  ⟨"circle", [("cx", "100"), ("cy", "100"), ("r", "50"), ("fill", "Red")], []⟩

/-- Counterexample to C8: a well-formed document whose root element is a
parseable circle yields an empty circle list, although the claim demands
one DetectedCircle for it. -/
theorem claim_C8_counterexample :
    rootCircleElem.tag = "circle"
    ∧ parseCircle rootCircleElem = some ⟨"red", 100, 100, 50⟩
    ∧ (parseSVG (some rootCircleElem)).circles = [] := by
  refine ⟨rfl, by decide, rfl⟩

/-- C8 as amended: the parser finds exactly the elements named `circle`
strictly below the root, at arbitrary nesting depth (`Desc` is the
transitive child relation), and produces one DetectedCircle per such
element subject to the numeric skip rule; the root element itself is
never searched. -/
theorem claim_C8_amended (root : XMLElem) :
    (parseSVG (some root)).circles =
      ((descendants root).filter fun e => e.tag == "circle").filterMap parseCircle
    ∧ (∀ x, x ∈ descendants root ↔ Desc root x)
    ∧ root ∉ descendants root :=
  ⟨rfl, fun x => mem_descendants_iff root x, root_not_mem_descendants root⟩

/-- Witness for the amended C8: in the demo document the nested circle is
a descendant, the root is not. -/
theorem claim_C8_witness :
    goodCircleElem ∈ descendants demoRoot ∧ demoRoot ∉ descendants demoRoot := by
  refine ⟨?_, (claim_C8_amended demoRoot).2.2⟩
  rw [(claim_C8_amended demoRoot).2.1 goodCircleElem]
  exact Desc.here (by simp [demoRoot])

/-- Substring relation on strings, stated over the character lists. -/
def strHasSub (sub whole : String) : Prop :=
  ∃ a b : List Char, whole.data = a ++ sub.data ++ b

theorem strHasSub_refl (s : String) : strHasSub s s := ⟨[], [], by simp⟩

theorem strHasSub_appendL {sub w : String} (h : strHasSub sub w) (x : String) :
    strHasSub sub (w ++ x) := by
  obtain ⟨a, b, hab⟩ := h
  exact ⟨a, b ++ x.data, by
    show (w ++ x).data = _
    rw [show (w ++ x).data = w.data ++ x.data from rfl, hab]
    simp [List.append_assoc]⟩

theorem strHasSub_appendR {sub w : String} (h : strHasSub sub w) (x : String) :
    strHasSub sub (x ++ w) := by
  obtain ⟨a, b, hab⟩ := h
  exact ⟨x.data ++ a, b, by
    show (x ++ w).data = _
    rw [show (x ++ w).data = x.data ++ w.data from rfl, hab]
    simp [List.append_assoc]⟩

theorem strHasSub_joinComma {c : String} :
    ∀ {l : List String}, c ∈ l → strHasSub c (joinComma l) := by
  intro l
  induction l with
  | nil => intro h; cases h
  | cons s rest ih =>
    intro h
    rcases List.mem_cons.mp h with rfl | h2
    · cases rest with
      | nil => exact strHasSub_refl c
      | cons r rs =>
        show strHasSub c ((c ++ ", ") ++ joinComma (r :: rs))
        exact strHasSub_appendL (strHasSub_appendL (strHasSub_refl c) _) _
    · cases rest with
      | nil => cases h2
      | cons r rs =>
        show strHasSub c ((s ++ ", ") ++ joinComma (r :: rs))
        exact strHasSub_appendR (ih h2) _

/-- Concatenation of the per-pair requirement lines, in list order. -/
def linesCat : List (String × String) → String
  | [] => ""
  | p :: ps => overlapLine p ++ linesCat ps

theorem foldl_overlap_eq :
    ∀ (ov : List (String × String)) (acc : String),
      ov.foldl (fun a p => a ++ overlapLine p) acc = acc ++ linesCat ov := by
  intro ov
  induction ov with
  | nil => intro acc; exact (String.append_empty acc).symm
  | cons p ps ih =>
    intro acc
    rw [List.foldl_cons, ih, linesCat, ← String.append_assoc]

theorem strHasSub_linesCat {p : String × String} :
    ∀ {ov : List (String × String)}, p ∈ ov → strHasSub (overlapLine p) (linesCat ov) := by
  intro ov
  induction ov with
  | nil => intro h; cases h
  | cons q qs ih =>
    intro h
    rcases List.mem_cons.mp h with rfl | h2
    · show strHasSub (overlapLine p) (overlapLine p ++ linesCat qs)
      exact strHasSub_appendL (strHasSub_refl _) _
    · show strHasSub (overlapLine p) (overlapLine q ++ linesCat qs)
      exact strHasSub_appendR (ih h2) _

theorem strHasSub_promptHeader {c : String} {circles : List String} (hc : c ∈ circles) :
    strHasSub c (promptHeader circles) := by
  have h1 : strHasSub c (joinComma circles) := strHasSub_joinComma hc
  show strHasSub c
    ((("Create a valid SVG code block containing exactly " ++ toString circles.length ++
        " circles. The circles must be filled with these colors: ") ++ joinComma circles) ++
      ". \nUse standard <circle cx=\x27...\x27 cy=\x27...\x27 r=\x27...\x27 fill=\x27...\x27 /> tags.\n\nCRITICAL GEOMETRY REQUIREMENTS:\n")
  exact strHasSub_appendL (strHasSub_appendR h1 _) _

/-- C9: the prompt contains every assigned colour name and one mandatory
MUST-overlap line per required pair; with an empty required set it
contains the no-overlap line instead; and it always ends with the closing
block whose first line forbids any unlisted overlap. -/
theorem claim_C9 (circles : List String) (ov : List (String × String)) :
    (∀ c ∈ circles, strHasSub c (get_prompt circles ov))
    ∧ (∀ p ∈ ov, strHasSub (overlapLine p) (get_prompt circles ov))
    ∧ (ov = [] → strHasSub noOverlapLine (get_prompt circles ov))
    ∧ (∃ s, get_prompt circles ov = s ++ promptTail) := by
  refine ⟨?_, ?_, ?_, ?_⟩
  · intro c hc
    have h2 := strHasSub_promptHeader hc
    cases ov with
    | nil =>
      show strHasSub c ((promptHeader circles ++ noOverlapLine) ++ promptTail)
      exact strHasSub_appendL (strHasSub_appendL h2 _) _
    | cons q qs =>
      show strHasSub c
        ((q :: qs).foldl (fun a p => a ++ overlapLine p) (promptHeader circles) ++ promptTail)
      rw [foldl_overlap_eq]
      exact strHasSub_appendL (strHasSub_appendL h2 _) _
  · intro p hp
    cases ov with
    | nil => cases hp
    | cons q qs =>
      show strHasSub (overlapLine p)
        ((q :: qs).foldl (fun a p => a ++ overlapLine p) (promptHeader circles) ++ promptTail)
      rw [foldl_overlap_eq]
      exact strHasSub_appendL (strHasSub_appendR (strHasSub_linesCat hp) _) _
  · rintro rfl
    show strHasSub noOverlapLine ((promptHeader circles ++ noOverlapLine) ++ promptTail)
    exact strHasSub_appendL (strHasSub_appendR (strHasSub_refl _) _) _
  · exact ⟨_, rfl⟩

/-- Witness for C9 at a concrete task. -/
theorem claim_C9_witness :
    strHasSub "Red" (get_prompt ["Red", "Blue"] [("Blue", "Red")])
    ∧ strHasSub (overlapLine ("Blue", "Red")) (get_prompt ["Red", "Blue"] [("Blue", "Red")])
    ∧ strHasSub noOverlapLine (get_prompt ["Red", "Blue"] []) := by
  refine ⟨?_, ?_, ?_⟩
  · exact (claim_C9 ["Red", "Blue"] [("Blue", "Red")]).1 "Red" (by simp)
  · exact (claim_C9 ["Red", "Blue"] [("Blue", "Red")]).2.1 ("Blue", "Red") (by simp)
  · exact (claim_C9 ["Red", "Blue"] []).2.2.1 rfl

/-! Lemmas about the extractor -/

theorem findPos_some {p : List Char → Bool} :
    ∀ {t : List Char} {i : ℕ}, findPos p t = some i →
      p (t.drop i) = true ∧ ∀ j, j < i → p (t.drop j) = false := by
  intro t
  induction t with
  | nil =>
    intro i h
    rw [findPos] at h
    by_cases hp : p [] = true
    · rw [if_pos hp] at h
      injection h with h
      subst h
      exact ⟨hp, fun j hj => absurd hj (Nat.not_lt_zero j)⟩
    · rw [if_neg hp] at h
      cases h
  | cons c t ih =>
    intro i h
    rw [findPos] at h
    by_cases hp : p (c :: t) = true
    · rw [if_pos hp] at h
      injection h with h
      subst h
      exact ⟨hp, fun j hj => absurd hj (Nat.not_lt_zero j)⟩
    · rw [if_neg hp] at h
      cases hft : findPos p t with
      | none => rw [hft] at h; cases h
      | some i0 =>
        rw [hft] at h
        replace h : i0 + 1 = i := by simpa using h
        subst h
        obtain ⟨hh1, hh2⟩ := ih hft
        refine ⟨hh1, ?_⟩
        intro j hj
        cases j with
        | zero =>
          simp only [Bool.not_eq_true] at hp
          exact hp
        | succ j0 => exact hh2 j0 (by omega)

theorem findPos_none {p : List Char → Bool} :
    ∀ {t : List Char}, findPos p t = none → ∀ j, p (t.drop j) = false := by
  intro t
  induction t with
  | nil =>
    intro h j
    rw [findPos] at h
    by_cases hp : p [] = true
    · rw [if_pos hp] at h; cases h
    · simp only [Bool.not_eq_true] at hp
      simpa using hp
  | cons c t ih =>
    intro h j
    rw [findPos] at h
    by_cases hp : p (c :: t) = true
    · rw [if_pos hp] at h; cases h
    · rw [if_neg hp] at h
      cases hft : findPos p t with
      | some i0 => rw [hft] at h; cases h
      | none =>
        cases j with
        | zero =>
          simp only [Bool.not_eq_true] at hp
          exact hp
        | succ j0 => exact ih hft j0

theorem ciListEq_length : ∀ (pat o : List Char), ciListEq pat o = true → o.length = pat.length
  | [], [], _ => rfl
  | [], _ :: _, h => by rw [show ciListEq [] (_ :: _) = false from rfl] at h; cases h
  | _ :: _, [], h => by rw [show ciListEq (_ :: _) [] = false from rfl] at h; cases h
  | p :: ps, c :: cs, h => by
    rw [show ciListEq (p :: ps) (c :: cs) = (ciEq p c && ciListEq ps cs) from rfl,
      Bool.and_eq_true] at h
    simp [ciListEq_length ps cs h.2]

theorem ciStarts_iff :
    ∀ (pat s : List Char), ciStarts pat s = true ↔ ∃ o r, s = o ++ r ∧ ciListEq pat o = true
  | [], s => by
    rw [show ciStarts [] s = true from rfl]
    constructor
    · intro _
      exact ⟨[], s, rfl, rfl⟩
    · intro _
      rfl
  | p :: ps, [] => by
    rw [show ciStarts (p :: ps) [] = false from rfl]
    constructor
    · intro h; cases h
    · rintro ⟨o, r, hor, ho⟩
      cases o with
      | nil => rw [show ciListEq (p :: ps) [] = false from rfl] at ho; cases ho
      | cons o0 os => cases hor
  | p :: ps, c :: cs => by
    rw [show ciStarts (p :: ps) (c :: cs) = (ciEq p c && ciStarts ps cs) from rfl,
      Bool.and_eq_true]
    constructor
    · rintro ⟨hh1, hh2⟩
      obtain ⟨o, r, rfl, ho⟩ := (ciStarts_iff ps cs).mp hh2
      refine ⟨c :: o, r, rfl, ?_⟩
      rw [show ciListEq (p :: ps) (c :: o) = (ciEq p c && ciListEq ps o) from rfl,
        Bool.and_eq_true]
      exact ⟨hh1, ho⟩
    · rintro ⟨o, r, hs, ho⟩
      cases o with
      | nil => rw [show ciListEq (p :: ps) [] = false from rfl] at ho; cases ho
      | cons o0 os =>
        injection hs with hs1 hs2
        subst hs1
        rw [show ciListEq (p :: ps) (c :: os) = (ciEq p c && ciListEq ps os) from rfl,
          Bool.and_eq_true] at ho
        exact ⟨ho.1, (ciStarts_iff ps cs).mpr ⟨os, r, hs2, ho.2⟩⟩

theorem ciStarts_of_ciListEq {pat o : List Char} (h : ciListEq pat o = true) (r : List Char) :
    ciStarts pat (o ++ r) = true :=
  (ciStarts_iff pat _).mpr ⟨o, r, rfl, h⟩

theorem ciStarts_take_pat {pat s : List Char} (h : ciStarts pat s = true) :
    ciListEq pat (s.take pat.length) = true ∧ pat.length ≤ s.length := by
  obtain ⟨o, r, rfl, hl⟩ := (ciStarts_iff pat _).mp h
  have hlen : o.length = pat.length := ciListEq_length pat o hl
  constructor
  · rw [← hlen, List.take_left]
    exact hl
  · rw [List.length_append]
    omega

theorem startsGt_iff (s : List Char) : startsGt s = true ↔ ∃ r, s = '>' :: r := by
  cases s with
  | nil =>
    rw [show startsGt [] = false from rfl]
    constructor
    · intro h; cases h
    · rintro ⟨r, hr⟩; cases hr
  | cons c cs =>
    rw [show startsGt (c :: cs) = (c == '>') from rfl, beq_iff_eq]
    constructor
    · rintro rfl
      exact ⟨cs, rfl⟩
    · rintro ⟨r, hr⟩
      injection hr with hr1 hr2

/-- Every full match occurring as a slice `take n (drop i)` of the text
forces: a case-insensitive `<svg` at `i`, a `>` at some `i + 4 + aL`, a
case-insensitive `</svg>` at `i + 5 + aL + bL`, the matched slice having
length `aL + bL + 11`. -/
theorem match_positions {td : List Char} {i n : ℕ} (h : IsSvgMatch ((td.drop i).take n)) :
    ∃ aL bL : ℕ,
      ciStarts openTagChars (td.drop i) = true ∧
      startsGt (td.drop (i + 4 + aL)) = true ∧
      ciStarts closeTagChars (td.drop (i + 5 + aL + bL)) = true ∧
      ((td.drop i).take n).length = aL + bL + 11 := by
  obtain ⟨o, a, b, c, hs, ho, hc⟩ := h
  have hoLen : o.length = 4 := ciListEq_length _ _ ho
  have hcLen : c.length = 6 := ciListEq_length _ _ hc
  have hu : td.drop i = o ++ (a ++ ('>' :: (b ++ (c ++ (td.drop i).drop n)))) := by
    conv_lhs => rw [← List.take_append_drop n (td.drop i), hs]
    simp [List.append_assoc]
  refine ⟨a.length, b.length, ?_, ?_, ?_, ?_⟩
  · rw [hu]
    exact ciStarts_of_ciListEq ho _
  · have hu2 : td.drop i = (o ++ a) ++ ('>' :: (b ++ (c ++ (td.drop i).drop n))) := by
      conv_lhs => rw [hu]
      rw [List.append_assoc]
    have hlen2 : (o ++ a).length = 4 + a.length := by
      rw [List.length_append, hoLen]
    have hdd : td.drop (i + 4 + a.length) = (td.drop i).drop (4 + a.length) := by
      rw [List.drop_drop]
      congr 1
      omega
    rw [hdd, hu2, List.drop_left' hlen2]
    rfl
  · have hu3 : td.drop i = ((o ++ a) ++ ('>' :: b)) ++ (c ++ (td.drop i).drop n) := by
      conv_lhs => rw [hu]
      simp [List.append_assoc]
    have hlen3 : ((o ++ a) ++ ('>' :: b)).length = 5 + a.length + b.length := by
      simp [List.length_append, hoLen]
      omega
    have hdd : td.drop (i + 5 + a.length + b.length) =
        (td.drop i).drop (5 + a.length + b.length) := by
      rw [List.drop_drop]
      congr 1
      omega
    rw [hdd, hu3, List.drop_left' hlen3]
    exact ciStarts_of_ciListEq hc _
  · rw [hs]
    simp [List.length_append, hoLen, hcLen]
    omega

/-- Conversely, a `<svg` at `i`, a first `>` at offset `k` after it and a
`</svg>` at offset `l` after that yield a full match of length
`k + l + 11` lying inside the text. -/
theorem slice_isMatch {td : List Char} {i k l : ℕ}
    (hh1 : ciStarts openTagChars (td.drop i) = true)
    (hh2 : startsGt ((td.drop (i + 4)).drop k) = true)
    (hh3 : ciStarts closeTagChars ((td.drop (i + 4 + k + 1)).drop l) = true) :
    IsSvgMatch ((td.drop i).take (k + l + 11)) ∧ i + (k + l + 11) ≤ td.length := by
  have hv : td.drop (i + 4) = (td.drop i).drop 4 := by
    rw [List.drop_drop]
  obtain ⟨hoEq, hoLe⟩ := ciStarts_take_pat hh1
  obtain ⟨r2, hr2⟩ := (startsGt_iff _).mp hh2
  obtain ⟨hcEq, hcLe⟩ := ciStarts_take_pat hh3
  have hgt : td.drop (i + 4 + k) = '>' :: r2 := by
    rw [← List.drop_drop, hr2]
  have hr2w : td.drop (i + 4 + k + 1) = r2 := by
    rw [← List.drop_drop, hgt]
    rfl
  constructor
  · refine ⟨(td.drop i).take 4, (td.drop (i + 4)).take k,
      (td.drop (i + 4 + k + 1)).take l,
      ((td.drop (i + 4 + k + 1)).drop l).take 6, ?_, hoEq, hcEq⟩
    have hstep1 : (td.drop i).take (k + l + 11) =
        (td.drop i).take 4 ++ (td.drop (i + 4)).take (k + (1 + (l + 6))) := by
      rw [show k + l + 11 = 4 + (k + (1 + (l + 6))) from by omega, List.take_add, hv]
    have hstep2 : (td.drop (i + 4)).take (k + (1 + (l + 6))) =
        (td.drop (i + 4)).take k ++ ('>' :: r2.take (l + 6)) := by
      rw [List.take_add, hr2, show (1 : ℕ) + (l + 6) = (l + 6) + 1 from by omega,
        List.take_succ_cons]
    have hstep3 : r2.take (l + 6) = (td.drop (i + 4 + k + 1)).take l ++
        ((td.drop (i + 4 + k + 1)).drop l).take 6 := by
      rw [hr2w, List.take_add]
    rw [hstep1, hstep2, hstep3]
  · have hl6 : (6 : ℕ) ≤ ((td.drop (i + 4 + k + 1)).drop l).length := hcLe
    rw [List.length_drop, List.length_drop] at hl6
    omega

/-- C7: the extractor returns the leftmost-starting match of the pattern,
and among the candidates at that start position the shortest one (the
lazy-quantifier semantics of `re.search`); when no slice of the input
matches, the input is returned unchanged. -/
theorem claim_C7 (t : String) :
    (∃ i n, extract_svg t = ⟨(t.data.drop i).take n⟩ ∧ i + n ≤ t.data.length ∧
      IsSvgMatch ((t.data.drop i).take n) ∧
      (∀ i2 n2, i2 < i → ¬ IsSvgMatch ((t.data.drop i2).take n2)) ∧
      (∀ n2, n2 < n → ¬ IsSvgMatch ((t.data.drop i).take n2)))
    ∨ (extract_svg t = t ∧ ∀ i n, ¬ IsSvgMatch ((t.data.drop i).take n)) := by
  cases h1 : findPos (ciStarts openTagChars) t.data with
  | none =>
    right
    constructor
    · show String.mk (extractList t.data) = t
      rw [show extractList t.data = t.data from by simp only [extractList, h1]]
    · intro i n hm
      obtain ⟨aL, bL, hopen, _, _, _⟩ := match_positions hm
      have hf := findPos_none h1 i
      rw [hf] at hopen
      cases hopen
  | some i =>
    obtain ⟨hopen_i, hmin_i⟩ := findPos_some h1
    cases h2 : findPos startsGt (t.data.drop (i + 4)) with
    | none =>
      right
      constructor
      · show String.mk (extractList t.data) = t
        rw [show extractList t.data = t.data from by simp only [extractList, h1, h2]]
      · intro i2 n2 hm
        obtain ⟨aL, bL, hopen2, hgt2, _, _⟩ := match_positions hm
        have hi2 : i ≤ i2 := by
          by_contra hlt
          push_neg at hlt
          have hf := hmin_i i2 hlt
          rw [hf] at hopen2
          cases hopen2
        have hrw : t.data.drop (i2 + 4 + aL) =
            (t.data.drop (i + 4)).drop (i2 + 4 + aL - (i + 4)) := by
          rw [List.drop_drop]
          congr 1
          omega
        rw [hrw] at hgt2
        have hf := findPos_none h2 (i2 + 4 + aL - (i + 4))
        rw [hf] at hgt2
        cases hgt2
    | some k =>
      obtain ⟨hgt_k, hmin_k⟩ := findPos_some h2
      cases h3 : findPos (ciStarts closeTagChars) (t.data.drop (i + 4 + k + 1)) with
      | none =>
        right
        constructor
        · show String.mk (extractList t.data) = t
          rw [show extractList t.data = t.data from by simp only [extractList, h1, h2, h3]]
        · intro i2 n2 hm
          obtain ⟨aL, bL, hopen2, hgt2, hclose2, _⟩ := match_positions hm
          have hi2 : i ≤ i2 := by
            by_contra hlt
            push_neg at hlt
            have hf := hmin_i i2 hlt
            rw [hf] at hopen2
            cases hopen2
          have hkle : i + 4 + k ≤ i2 + 4 + aL := by
            by_contra hlt
            push_neg at hlt
            have hrw : t.data.drop (i2 + 4 + aL) =
                (t.data.drop (i + 4)).drop (i2 + 4 + aL - (i + 4)) := by
              rw [List.drop_drop]
              congr 1
              omega
            rw [hrw] at hgt2
            have hf := hmin_k (i2 + 4 + aL - (i + 4)) (by omega)
            rw [hf] at hgt2
            cases hgt2
          have hrw2 : t.data.drop (i2 + 5 + aL + bL) =
              (t.data.drop (i + 4 + k + 1)).drop (i2 + 5 + aL + bL - (i + 4 + k + 1)) := by
            rw [List.drop_drop]
            congr 1
            omega
          rw [hrw2] at hclose2
          have hf := findPos_none h3 (i2 + 5 + aL + bL - (i + 4 + k + 1))
          rw [hf] at hclose2
          cases hclose2
      | some l =>
        obtain ⟨hclose_l, hmin_l⟩ := findPos_some h3
        obtain ⟨hmatch, hbound⟩ := slice_isMatch hopen_i hgt_k hclose_l
        left
        refine ⟨i, k + l + 11, ?_, hbound, hmatch, ?_, ?_⟩
        · show String.mk (extractList t.data) = _
          rw [show extractList t.data = (t.data.drop i).take (k + l + 11) from by
            simp only [extractList, h1, h2, h3]]
        · intro i2 n2 hlt hm
          obtain ⟨aL, bL, hopen2, _, _, _⟩ := match_positions hm
          have hf := hmin_i i2 hlt
          rw [hf] at hopen2
          cases hopen2
        · intro n2 hn2 hm
          obtain ⟨aL, bL, hopen2, hgt2, hclose2, hlen2⟩ := match_positions hm
          have hkle : k ≤ aL := by
            by_contra hlt
            push_neg at hlt
            have hrw : t.data.drop (i + 4 + aL) = (t.data.drop (i + 4)).drop aL := by
              rw [List.drop_drop]
            rw [hrw] at hgt2
            have hf := hmin_k aL hlt
            rw [hf] at hgt2
            cases hgt2
          have hlle : l ≤ aL - k + bL := by
            by_contra hlt
            push_neg at hlt
            have hrw : t.data.drop (i + 5 + aL + bL) =
                (t.data.drop (i + 4 + k + 1)).drop (aL - k + bL) := by
              rw [List.drop_drop]
              congr 1
              omega
            rw [hrw] at hclose2
            have hf := hmin_l (aL - k + bL) hlt
            rw [hf] at hclose2
            cases hclose2
          have hlen3 : ((t.data.drop i).take n2).length ≤ n2 := by
            rw [List.length_take]
            omega
          omega

/-- Witness for C7 at a concrete input string. -/
theorem claim_C7_witness :
    (∃ i n, extract_svg "ab<svg x>hi</svg>z" = ⟨(("ab<svg x>hi</svg>z" : String).data.drop i).take n⟩ ∧
      i + n ≤ ("ab<svg x>hi</svg>z" : String).data.length ∧
      IsSvgMatch ((("ab<svg x>hi</svg>z" : String).data.drop i).take n) ∧
      (∀ i2 n2, i2 < i →
        ¬ IsSvgMatch ((("ab<svg x>hi</svg>z" : String).data.drop i2).take n2)) ∧
      (∀ n2, n2 < n →
        ¬ IsSvgMatch ((("ab<svg x>hi</svg>z" : String).data.drop i).take n2)))
    ∨ (extract_svg "ab<svg x>hi</svg>z" = "ab<svg x>hi</svg>z" ∧
      ∀ i n, ¬ IsSvgMatch ((("ab<svg x>hi</svg>z" : String).data.drop i).take n)) :=
  claim_C7 "ab<svg x>hi</svg>z"

end CircleBench
